import Mathlib

/-!
Verification development for the MARC converter (`src/app.py`).

Python strings are modelled as `List Char`; spreadsheet cell values as
`CellVal` (`null` models Python `None`, `date` models `datetime` cells).
Each definition below is a direct translation of the function of the same
name in `src/app.py`; deviations forced by the modelling are noted at the
definition they concern.
-/

set_option maxRecDepth 4000

namespace Marc

/-- The character set of `.strip(" \t\n\r\0\x0B")` used throughout `app.py`. -/
def stripSet : List Char := [' ', '\t', '\n', '\r', '\x00', '\x0B']

/-- Python `s.strip(chars)`: drop characters of the set from both ends. -/
def pyStrip (s : List Char) : List Char :=
  ((s.dropWhile (fun c => c ∈ stripSet)).reverse.dropWhile (fun c => c ∈ stripSet)).reverse

/-- Python `s.replace('\xa0', ' ')` (single-character replacement). -/
def replaceNbsp (s : List Char) : List Char :=
  s.map (fun c => if c = '\xA0' then ' ' else c)

/-- Python `str.lower()`; `Char.toLower` agrees with it on the ASCII and
control characters exercised in this development. -/
def lowerPy (s : List Char) : List Char := s.map Char.toLower

/-- Python `str.isspace` characters, used by no-argument `split()`/`strip()`. -/
def isPyWs (c : Char) : Bool :=
  ([' ', '\t', '\n', '\r', '\x0B', '\x0C', '\x1C', '\x1D', '\x1E', '\x1F',
    '\x85', '\xA0'].contains c)
  || ([0x1680, 0x2028, 0x2029, 0x202F, 0x205F, 0x3000].contains c.toNat)
  || (Nat.ble 0x2000 c.toNat && Nat.ble c.toNat 0x200A)

/-- Python `s.strip()` with no argument (strips Unicode whitespace). -/
def pyStripWsAll (s : List Char) : List Char :=
  ((s.dropWhile isPyWs).reverse.dropWhile isPyWs).reverse

/-- Python `s.split(sep)` for a one-character separator: keeps empty tokens,
`"".split(sep) = [""]`. -/
def splitOnChar (sep : Char) : List Char → List (List Char)
  | [] => [[]]
  | c :: rest =>
    match splitOnChar sep rest with
    | [] => [[]]
    | t :: ts => if c = sep then [] :: t :: ts else (c :: t) :: ts

/-- Helper for `pySplitWs`: accumulate the current (reversed) token. -/
def splitWsAux : List Char → List Char → List (List Char)
  | acc, [] => if acc = [] then [] else [acc.reverse]
  | acc, c :: rest =>
    if isPyWs c then
      (if acc = [] then splitWsAux [] rest else acc.reverse :: splitWsAux [] rest)
    else splitWsAux (c :: acc) rest

/-- Python no-argument `s.split()`: whitespace-run splitting, no empty tokens. -/
def pySplitWs (s : List Char) : List (List Char) := splitWsAux [] s

/-- `unicodedata.normalize('NFKC', v)`.  NFKC is the identity on every
character exercised in this development (ASCII, C0/C1 controls and U+00A0),
so it is modelled as the identity function; no claim under verification
depends on a nontrivial compatibility decomposition. -/
def nfkc (s : List Char) : List Char := s

/-- `app.py` lines 29-34: `norm` — strip, NBSP fold, NFKC, lowercase,
collapse internal whitespace runs to single spaces. -/
def norm (v : List Char) : List Char :=
  let v := replaceNbsp (pyStrip v)
  let v := nfkc v
  List.intercalate [' '] (pySplitWs (lowerPy v))

/-- A spreadsheet cell value: Python `None`, a text value, or a `datetime`
value (year, month, day, hour, minute, second). -/
inductive CellVal where
  | null : CellVal
  | str : List Char → CellVal
  | date : Nat → Nat → Nat → Nat → Nat → Nat → CellVal
deriving DecidableEq

/-- Decimal digits of a natural number (Python `str(n)` for `n : Nat`). -/
def natToDec (n : Nat) : List Char := Nat.toDigits 10 n

/-- Left-pad a digit string with zeros to width `w` (Python `'%0*d'`). -/
def zpad (w : Nat) (s : List Char) : List Char :=
  List.replicate (w - s.length) '0' ++ s

/-- `dt.strftime('%Y-%m-%d')`; the year is rendered zero-padded to 4 digits
(years below 1000 never arise in this development). -/
def strftimeYmd (y m d : Nat) : List Char :=
  zpad 4 (natToDec y) ++ '-' :: zpad 2 (natToDec m) ++ '-' :: zpad 2 (natToDec d)

/-- Gregorian leap-year rule used by `datetime` validation. -/
def isLeap (y : Nat) : Bool :=
  (y % 4 == 0) && (y % 100 != 0 || y % 400 == 0)

/-- Days in a month, as validated by `datetime(year, month, day)`. -/
def daysInMonth (y m : Nat) : Nat :=
  if m = 2 then (if isLeap y then 29 else 28)
  else if m ∈ [4, 6, 9, 11] then 30 else 31

/-- `re.match(r'\d{4}-\d{2}-\d{2}( \d{2}:\d{2}:\d{2})?', s)` as a Boolean:
an (unanchored-at-the-end) prefix match; the optional time group never
affects whether the match succeeds.  `\d` is modelled as ASCII digits. -/
def dateRe : List Char → Bool
  | a :: b :: c :: d :: '-' :: e :: f :: '-' :: g :: h :: _ =>
    a.isDigit && b.isDigit && c.isDigit && d.isDigit &&
    e.isDigit && f.isDigit && g.isDigit && h.isDigit
  | _ => false

/-- Numeric value of a digit character. -/
def digitVal (c : Char) : Nat := c.toNat - '0'.toNat

/-- `datetime.strptime(s, '%Y-%m-%d')` for inputs already known to begin
with `\d{4}-\d{2}-\d{2}` (guaranteed by `dateRe` at the call site): the
string must be exactly that 10-character shape with a calendar-valid date;
`datetime` requires `year ≥ 1`.  Returns the `strftime('%Y-%m-%d')`
rendering on success. -/
def strptimeYmd : List Char → Option (List Char)
  | [y1, y2, y3, y4, '-', m1, m2, '-', d1, d2] =>
    if y1.isDigit && y2.isDigit && y3.isDigit && y4.isDigit &&
       m1.isDigit && m2.isDigit && d1.isDigit && d2.isDigit then
      let y := ((digitVal y1 * 10 + digitVal y2) * 10 + digitVal y3) * 10 + digitVal y4
      let m := digitVal m1 * 10 + digitVal m2
      let d := digitVal d1 * 10 + digitVal d2
      if 1 ≤ y ∧ 1 ≤ m ∧ m ≤ 12 ∧ 1 ≤ d ∧ d ≤ daysInMonth y m then
        some (strftimeYmd y m d)
      else none
    else none
  | _ => none

/-- `datetime.strptime(s, '%Y-%m-%d %H:%M:%S')` for inputs beginning with
`\d{4}-\d{2}-\d{2}`: modelled for the exact two-digit time shape
(`strptime` additionally tolerates one-digit time components; that
tolerance is not exercised by any claim). -/
def strptimeYmdHms : List Char → Option (List Char)
  | [y1, y2, y3, y4, '-', m1, m2, '-', d1, d2, ' ', h1, h2, ':', i1, i2, ':', s1, s2] =>
    if [y1, y2, y3, y4, m1, m2, d1, d2, h1, h2, i1, i2, s1, s2].all Char.isDigit then
      let y := ((digitVal y1 * 10 + digitVal y2) * 10 + digitVal y3) * 10 + digitVal y4
      let m := digitVal m1 * 10 + digitVal m2
      let d := digitVal d1 * 10 + digitVal d2
      let hh := digitVal h1 * 10 + digitVal h2
      let mi := digitVal i1 * 10 + digitVal i2
      let ss := digitVal s1 * 10 + digitVal s2
      if 1 ≤ y ∧ 1 ≤ m ∧ m ≤ 12 ∧ 1 ≤ d ∧ d ≤ daysInMonth y m ∧
         hh ≤ 23 ∧ mi ≤ 59 ∧ ss ≤ 59 then
        some (strftimeYmd y m d)
      else none
    else none
  | _ => none

/-- `app.py` lines 36-56: `format_date`. -/
def format_date : CellVal → List Char
  | CellVal.null => []
  | CellVal.date y m d _ _ _ => strftimeYmd y m d
  | CellVal.str s =>
    let val_str := replaceNbsp (pyStrip s)
    if val_str = [] ∨ lowerPy val_str = ("none".data) then []
    else if dateRe val_str then
      match (if val_str.contains ' ' then strptimeYmdHms val_str else strptimeYmd val_str) with
      | some out => out
      | none => val_str
    else val_str

/-- `app.py` lines 102-108: `first_nonempty`.  The stored value `c` is a
Python `str | None`; the row value `v` is a raw cell (`format_date` is
applied to it first when it is not `None`). -/
def first_nonempty (c : Option (List Char)) (v : CellVal) : Option (List Char) :=
  let vf : Option (List Char) :=
    match v with
    | CellVal.null => Option.none
    | w => some (format_date w)
  match c with
  | some cv =>
    if cv ≠ [] then some cv
    else match vf with
      | some w => if w ≠ [] then some w else some cv
      | Option.none => some cv
  | Option.none =>
    match vf with
    | some w => if w ≠ [] then some w else Option.none
    | Option.none => Option.none

/-- `app.py` line 110-111: `build_ldr`. -/
def build_ldr : List Char := "=LDR  00000nam a2200000Ia 4500".data

/-- `app.py` lines 113-115: `build_008`; `today` stands for
`datetime.now().strftime("%y%m%d")` (always 6 characters). -/
def build_008 (today lang : List Char) : List Char :=
  ("=008  ".data) ++ today ++ ("s9999||||xx\\||||||||||||||\\||".data) ++ lang ++ ("||".data)

/-- `app.py` lines 117-122: `is_row_empty`. -/
def is_row_empty (row : List CellVal) : Bool :=
  row.all (fun cell => format_date cell = [])

/-- `app.py` lines 21-25: `BIB_KEYS`, the fixed ordered key-field schema. -/
def BIB_KEYS : List (List Char) :=
  ["020$a", "020$c", "040$a", "040$b", "040$c", "040$d", "041$a", "082$a", "082$b",
   "100$a", "110$a", "245$a", "245$b", "246$a", "250$a", "260$a", "260$b", "260$c",
   "300$a", "300$b", "300$c", "300$e", "362$a", "365$a", "365$b", "365$c", "365$d",
   "365$e", "365$j", "490$a", "490$v", "500$a", "520$a", "521$a", "942$c", "856$u",
   "650$a", "650$x", "700$a", "710$a"].map String.data

/-- `app.py` line 26: `MULTI_SPLIT = '|'`. -/
def MULTI_SPLIT : Char := '|'

/-- The fields treated as multi-valued by the grouping key
(`app.py` line 212: `if fn in ['650$a', '700$a', '710$a']`). -/
def MULTI_KEY_FIELDS : List (List Char) :=
  ["650$a", "700$a", "710$a"].map String.data

/-- `x.strip(" \t\n\r\0\x0B").replace('\xa0', ' ')`, the per-token cleaning
used by the key builder and the 020/650 split logic. -/
def stripClean (x : List Char) : List Char := replaceNbsp (pyStrip x)

/-- One key field's contribution to `key_parts` (`app.py` lines 209-218),
given `v = format_date(row_data.get(fn, ''))`. -/
def keySegmentsFor (fn : List Char) (v : List Char) : List (List Char) :=
  if fn ∈ MULTI_KEY_FIELDS then
    let vals := (splitOnChar MULTI_SPLIT v).map stripClean
    let norm_vals :=
      if vals.any (fun x => x ≠ []) then (vals.filter (fun x => x ≠ [])).map norm
      else [("__EMPTY__".data)]
    (norm_vals.enum).map (fun p => fn ++ '_' :: natToDec (p.1 + 1) ++ ':' :: p.2)
  else [fn ++ ':' :: norm v]

/-- A row's values keyed by cleaned header text (Python dict as assoc list;
`dictInsert` reproduces dict overwrite-in-place semantics). -/
def lookupRD : List (List Char × CellVal) → List Char → Option CellVal
  | [], _ => Option.none
  | (k, v) :: rest, fn => if k = fn then some v else lookupRD rest fn

/-- Python dict assignment `d[k] = v`: overwrite in place, else append. -/
def dictInsert (d : List (List Char × CellVal)) (k : List Char) (v : CellVal) :
    List (List Char × CellVal) :=
  if (lookupRD d k).isSome then d.map (fun p => if p.1 = k then (k, v) else p)
  else d ++ [(k, v)]

/-- `row[col_idx - 1] if col_idx - 1 < len(row) else ''` (`app.py` line 186). -/
def cellAtD (row : List CellVal) (col : Nat) : CellVal :=
  if col - 1 < row.length then row.getD (col - 1) (CellVal.str []) else CellVal.str []

/-- `app.py` lines 184-187: build `row_data` from the header map and a row. -/
def row_data (headers : List (Nat × List Char)) (row : List CellVal) :
    List (List Char × CellVal) :=
  headers.foldl (fun d p => dictInsert d p.2 (cellAtD row p.1)) []

/-- `row_data.get(fn)` (default `None`). -/
def rowGet (rd : List (List Char × CellVal)) (fn : List Char) : CellVal :=
  (lookupRD rd fn).getD CellVal.null

/-- `row_data.get(fn, '')` (default `''`), used only by the key builder. -/
def rowGetKeyD (rd : List (List Char × CellVal)) (fn : List Char) : CellVal :=
  (lookupRD rd fn).getD (CellVal.str [])

/-- `app.py` lines 208-218: the full `key_parts` list of a row. -/
def keyParts (rd : List (List Char × CellVal)) : List (List Char) :=
  BIB_KEYS.flatMap (fun fn => keySegmentsFor fn (format_date (rowGetKeyD rd fn)))

/-- `app.py` line 219: `key = '||'.join(key_parts) if key_parts else f"row-{recid}"`. -/
def rowKey (rd : List (List Char × CellVal)) (recid : Nat) : List Char :=
  if keyParts rd ≠ [] then List.intercalate ("||".data) (keyParts rd)
  else ("row-".data) ++ natToDec recid

/-- The key of a row as a pure function of its cells (no ordinal involved);
coincides with `rowKey` because `key_parts` is never empty. -/
def pureRowKey (headers : List (Nat × List Char)) (row : List CellVal) : List Char :=
  List.intercalate ("||".data) (keyParts (row_data headers row))

/-- One `020` list entry `{'a': isbn, 'c': current_c}` (`app.py` line 262);
`c` keeps the raw cell value (`val_020c` may be any cell or `None`). -/
structure Entry020 where
  a : List Char
  c : CellVal
deriving DecidableEq

/-- One `650` list entry `{'a': sub_a, 'x': sub_x}` (`app.py` line 278). -/
structure Entry650 where
  a : List Char
  x : Option (List Char)
deriving DecidableEq

/-- One in-memory group (`app.py` lines 224-250).  The per-tag scalar
sub-dicts are folded into one map from field identifier (`"040$a"`, ...) to
the stored value; only names in `SCALAR_FIELDS` are ever updated. -/
structure Group where
  scalars : List Char → Option (List Char)
  e020 : List Entry020
  e650 : List Entry650
  r700 : List (List Char)
  r710 : List (List Char)
  holdings_pairs : List (List (Char × List Char))

/-- The 34 non-repeatable subfields updated at `app.py` lines 288-321. -/
def SCALAR_FIELDS : List (List Char) :=
  ["040$a", "040$b", "040$c", "040$d", "041$a", "082$a", "082$b", "100$a", "110$a",
   "245$a", "245$b", "246$a", "250$a", "260$a", "260$b", "260$c", "300$a", "300$b",
   "300$c", "300$e", "362$a", "365$a", "365$b", "365$c", "365$d", "365$e", "365$j",
   "490$a", "490$v", "500$a", "520$a", "521$a", "856$u", "942$c"].map String.data

/-- A fresh group: every scalar absent, every list empty. -/
def emptyGroup : Group :=
  { scalars := fun _ => Option.none, e020 := [], e650 := [], r700 := [], r710 := [],
    holdings_pairs := [] }

instance : Inhabited Group := ⟨emptyGroup⟩

/-- Python truthiness of a cell value. -/
def cellTruthy : CellVal → Bool
  | CellVal.null => false
  | CellVal.str s => s ≠ []
  | CellVal.date _ _ _ _ _ _ => true

/-- The text of a cell where the code calls `.split` on it directly.  A
truthy non-text cell would raise `AttributeError` in Python; that abort
path is outside the model and is never exercised by any claim. -/
def cellText : CellVal → List Char
  | CellVal.str s => s
  | _ => []

/-- `app.py` lines 255-262: split `020$a` on the delimiter and attach the
`020$c` qualifier only to the token at index 0. -/
def split020 (val_a : List Char) (val_c : CellVal) : List Entry020 :=
  let isbns := (splitOnChar MULTI_SPLIT val_a).map stripClean
  (isbns.enum).foldl
    (fun acc p =>
      if p.2 ≠ [] then acc ++ [⟨p.2, if p.1 = 0 then val_c else CellVal.null⟩] else acc)
    []

/-- `app.py` lines 268-278: split `650$a` and `650$x` and pair them by index. -/
def build650 (val_a : List Char) (val_x : CellVal) : List Entry650 :=
  let list_a := (splitOnChar MULTI_SPLIT val_a).map stripClean
  let list_x :=
    if cellTruthy val_x then (splitOnChar MULTI_SPLIT (cellText val_x)).map stripClean
    else []
  (list_a.enum).foldl
    (fun acc p =>
      if p.2 ≠ [] then
        acc ++ [⟨p.2, let lx := list_x.getD p.1 []; if lx ≠ [] then some lx else Option.none⟩]
      else acc)
    []

/-- `app.py` lines 282-285: tokens appended to the `700`/`710` lists
(`x for x in v.split('|') if x.strip()`; tokens are kept unstripped). -/
def split7 (v : List Char) : List (List Char) :=
  (splitOnChar MULTI_SPLIT v).filter (fun x => pyStripWsAll x ≠ [])

/-- `app.py` lines 252-262: the `020` block of the row fold. -/
def applyRow020 (g : Group) (rd : List (List Char × CellVal)) : Group :=
  let val_020a := rowGet rd ("020$a".data)
  let val_020c := rowGet rd ("020$c".data)
  if cellTruthy val_020a then
    { g with e020 := g.e020 ++ split020 (cellText val_020a) val_020c } else g

/-- `app.py` lines 264-279: the `650` block of the row fold. -/
def applyRow650 (g : Group) (rd : List (List Char × CellVal)) : Group :=
  let val_650a := rowGet rd ("650$a".data)
  let val_650x := rowGet rd ("650$x".data)
  if cellTruthy val_650a then
    { g with e650 := g.e650 ++ build650 (cellText val_650a) val_650x } else g

/-- `app.py` lines 282-283: the `700` repeatable block. -/
def applyRow700 (g : Group) (rd : List (List Char × CellVal)) : Group :=
  let v700 := rowGet rd ("700$a".data)
  if cellTruthy v700 then { g with r700 := g.r700 ++ split7 (cellText v700) } else g

/-- `app.py` lines 284-285: the `710` repeatable block. -/
def applyRow710 (g : Group) (rd : List (List Char × CellVal)) : Group :=
  let v710 := rowGet rd ("710$a".data)
  if cellTruthy v710 then { g with r710 := g.r710 ++ split7 (cellText v710) } else g

/-- `app.py` lines 288-321: the non-repeatable (scalar) block — every
scalar subfield merged with `first_nonempty`. -/
def applyRowScalars (g : Group) (rd : List (List Char × CellVal)) : Group :=
  { g with scalars := fun fn =>
      if fn ∈ SCALAR_FIELDS then first_nonempty (g.scalars fn) (rowGet rd fn)
      else g.scalars fn }

/-- `app.py` lines 323-324: append the row's holdings item when non-empty. -/
def applyRowHoldings (g : Group) (pairs : List (Char × List Char)) : Group :=
  if pairs ≠ [] then { g with holdings_pairs := g.holdings_pairs ++ [pairs] } else g

/-- `app.py` lines 252-324: fold one row into its group, block by block in
source order. -/
def applyRow (g : Group) (rd : List (List Char × CellVal))
    (pairs : List (Char × List Char)) : Group :=
  applyRowHoldings
    (applyRowScalars (applyRow710 (applyRow700 (applyRow650 (applyRow020 g rd) rd) rd) rd) rd)
    pairs

/-- Ordered key→group map (Python dict preserves insertion order). -/
def lookupG : List (List Char × Group) → List Char → Option Group
  | [], _ => Option.none
  | (k, g) :: rest, key => if k = key then some g else lookupG rest key

/-- Store a group under a key: update in place, else append (dict semantics). -/
def insertOrUpdate : List (List Char × Group) → List Char → Group →
    List (List Char × Group)
  | [], key, g => [(key, g)]
  | (k, g0) :: rest, key, g =>
    if k = key then (k, g) :: rest else (k, g0) :: insertOrUpdate rest key g

/-- `app.py` lines 190-197: the holdings pairs of a row, scanned in
holdings-column order; only non-empty formatted values are kept. -/
def computePairs (hcols : List (Nat × Char)) (row : List CellVal) :
    List (Char × List Char) :=
  hcols.foldl
    (fun acc hc =>
      let val := format_date (cellAtD row hc.1)
      if val ≠ [] then acc ++ [(hc.2, val)] else acc)
    []

/-- `app.py` lines 199-205: the last-row re-read of the holdings cells via
`sheet.cell(...)`.  The model's sheet is the row list itself, so the
re-read returns the row's own cells (`None` beyond the stored cells). -/
def computePairsSheet (hcols : List (Nat × Char)) (row : List CellVal) :
    List (Char × List Char) :=
  hcols.foldl
    (fun acc hc =>
      let val := format_date (row.getD (hc.1 - 1) CellVal.null)
      if val ≠ [] then acc ++ [(hc.2, val)] else acc)
    []

/-- `app.py` lines 177-324: process one data row against the grouping state
`(groups, recid)`. -/
def stepRowFull (headers : List (Nat × List Char)) (hcols : List (Nat × Char))
    (st : List (List Char × Group) × Nat) (row : List CellVal) (isLast : Bool) :
    List (List Char × Group) × Nat :=
  if is_row_empty row then st
  else
    let rd := row_data headers row
    let pairs0 := computePairs hcols row
    let pairs := if isLast && pairs0.isEmpty then computePairsSheet hcols row else pairs0
    let key := rowKey rd st.2
    let g0 := (lookupG st.1 key).getD emptyGroup
    (insertOrUpdate st.1 key (applyRow g0 rd pairs), st.2 + 1)

/-- The whole grouping pass (`app.py` lines 172-324): fold the data rows,
flagging the last physical row. -/
def accumulate (headers : List (Nat × List Char)) (hcols : List (Nat × Char))
    (rows : List (List CellVal)) : List (List Char × Group) × Nat :=
  (rows.enum).foldl
    (fun st p => stepRowFull headers hcols st p.2 (p.1 == rows.length - 1))
    ([], 1)

/-- `list(dict.fromkeys(l))` (`app.py` lines 328-329): first-occurrence
dedup, order preserved. -/
def dedupSeen (seen : List (List Char)) : List (List Char) → List (List Char)
  | [] => []
  | x :: xs => if x ∈ seen then dedupSeen seen xs else x :: dedupSeen (x :: seen) xs

/-- `app.py` lines 332-341: dedup `020` entries by the primary value only. -/
def dedup020 (seen : List (List Char)) : List Entry020 → List Entry020
  | [] => []
  | e :: es => if e.a ∈ seen then dedup020 seen es else e :: dedup020 (e.a :: seen) es

/-- `app.py` lines 344-352: dedup `650` entries by the full `(a, x)` pair. -/
def dedup650 (seen : List (List Char × Option (List Char))) :
    List Entry650 → List Entry650
  | [] => []
  | e :: es =>
    if (e.a, e.x) ∈ seen then dedup650 seen es else e :: dedup650 ((e.a, e.x) :: seen) es

/-- `app.py` lines 327-352: the per-group dedup pass (holdings untouched). -/
def dedupGroup (g : Group) : Group :=
  { g with r700 := dedupSeen [] g.r700, r710 := dedupSeen [] g.r710,
           e020 := dedup020 [] g.e020, e650 := dedup650 [] g.e650 }

/-- Apply the dedup pass to every group, keeping the stored order. -/
def dedupGroups (gs : List (List Char × Group)) : List (List Char × Group) :=
  gs.map (fun p => (p.1, dedupGroup p.2))

/-- `app.py` lines 91-100: `line_mrk`.  Subfield values are Python objects;
every call site passes either a string or (for `020$c`) a raw cell, so the
values are modelled as `CellVal` and strings are wrapped with `.str`. -/
def line_mrk (tag : List Char) (subs : List (Char × CellVal)) (ind1 ind2 : Char) :
    List Char :=
  let parts := subs.foldl
    (fun acc p =>
      let vf := format_date p.2
      if vf = [] then acc else acc ++ [('$' :: p.1 :: vf)])
    []
  if parts = [] then []
  else '=' :: tag ++ ("  ".data) ++ ind1 :: ind2 :: parts.flatten

/-- `app.py` line 76: the canonical `952` subfield precedence table (note
`'t'` and `'2'` each occur twice). -/
def subfield_order : List Char :=
  ['p', 'd', 'o', 'e', 'g', '0', '1', '2', '4', '5', '7', 'f', 't', 'A', 'B',
   'c', 'C', 't', '2', '8', 'w', 'x', 'z', 'y', 'a', 'b']

/-- `part.startswith(f"${code}")` for a one-character subfield code. -/
def startsDollarCode (part : List Char) (code : Char) : Bool :=
  match part with
  | a :: b :: _ => a = '$' && b = code
  | _ => false

/-- `app.py` lines 58-89: `line_mrk_pairs`.  The accumulator only ever
builds well-formed two-element `[code, val]` pairs with a one-character
code and a string value, so a pair is modelled as `Char × List Char`
(the malformed-pair skip of lines 60-63 is therefore unreachable here). -/
def line_mrk_pairs (tag : List Char) (pairs : List (Char × List Char))
    (ind1 ind2 : Char) : List Char :=
  let parts := pairs.foldl
    (fun acc p =>
      let vf := format_date (CellVal.str p.2)
      if vf = [] then acc else acc ++ [('$' :: p.1 :: vf)])
    []
  if parts = [] then []
  else
    let parts :=
      if tag = ("952".data) then
        let sorted_parts := subfield_order.foldl
          (fun sp code => sp ++ parts.filter (fun part => startsDollarCode part code)) []
        sorted_parts ++ parts.filter (fun part => part ∉ sorted_parts)
      else parts
    '=' :: tag ++ ("  ".data) ++ ind1 :: ind2 :: parts.flatten

/-- `app.py` line 362: the record language — the stored `041$a` re-stripped
if truthy, else the request language. -/
def rec_lang (stored : Option (List Char)) (lang : List Char) : List Char :=
  match stored with
  | some s => if s ≠ [] then stripClean s else lang
  | Option.none => lang

/-- Python `repr` of a simple string (no quotes/escapes inside), as used by
`str(dict)`. -/
def pyReprStr (s : List Char) : List Char := '\'' :: s ++ ['\'']

/-- `str({'a': ..., 'x': ...})` for a `650` entry: the serializer passes the
entry dict itself to `line_mrk` (`app.py` line 411), where `format_date`
stringifies it.  Modelled for values without quotes or escapes (no theorem
evaluates this on a non-empty `650` list). -/
def pyReprDict650 (e : Entry650) : List Char :=
  ['\x7b', '\'', 'a', '\'', ':', ' '] ++ pyReprStr e.a ++
    [',', ' ', '\'', 'x', '\'', ':', ' '] ++
    (match e.x with | some x => pyReprStr x | Option.none => ("None".data)) ++ ['\x7d']

/-- `%09d` zero-padding of the record counter (`app.py` line 359). -/
def pad9 (n : Nat) : List Char := zpad 9 (natToDec n)

/-- The `fields` table of `app.py` lines 369-388: scalar tags in declared
order with their subfield letters in declared order. -/
def fieldsList (g : Group) : List (List Char × List (Char × Option (List Char))) :=
  [(("040".data), [('a', g.scalars ("040$a".data)), ('b', g.scalars ("040$b".data)),
                   ('c', g.scalars ("040$c".data)), ('d', g.scalars ("040$d".data))]),
   (("041".data), [('a', g.scalars ("041$a".data))]),
   (("082".data), [('a', g.scalars ("082$a".data)), ('b', g.scalars ("082$b".data))]),
   (("100".data), [('a', g.scalars ("100$a".data))]),
   (("110".data), [('a', g.scalars ("110$a".data))]),
   (("245".data), [('a', g.scalars ("245$a".data)), ('b', g.scalars ("245$b".data))]),
   (("246".data), [('a', g.scalars ("246$a".data))]),
   (("250".data), [('a', g.scalars ("250$a".data))]),
   (("260".data), [('a', g.scalars ("260$a".data)), ('b', g.scalars ("260$b".data)),
                   ('c', g.scalars ("260$c".data))]),
   (("300".data), [('a', g.scalars ("300$a".data)), ('b', g.scalars ("300$b".data)),
                   ('c', g.scalars ("300$c".data)), ('e', g.scalars ("300$e".data))]),
   (("362".data), [('a', g.scalars ("362$a".data))]),
   (("365".data), [('a', g.scalars ("365$a".data)), ('b', g.scalars ("365$b".data)),
                   ('c', g.scalars ("365$c".data)), ('d', g.scalars ("365$d".data)),
                   ('e', g.scalars ("365$e".data)), ('j', g.scalars ("365$j".data))]),
   (("490".data), [('a', g.scalars ("490$a".data)), ('v', g.scalars ("490$v".data))]),
   (("500".data), [('a', g.scalars ("500$a".data))]),
   (("520".data), [('a', g.scalars ("520$a".data))]),
   (("521".data), [('a', g.scalars ("521$a".data))]),
   (("856".data), [('u', g.scalars ("856$u".data))]),
   (("942".data), [('c', g.scalars ("942$c".data))])]

/-- `app.py` lines 398-408: one scalar tag's output line — format the
subfields into `cleaned_subs`, then render via `line_mrk` (which formats a
second time); empty result when all subfields are empty. -/
def lineForField (p : List Char × List (Char × Option (List Char))) : List Char :=
  let cleaned := p.2.foldl
    (fun acc kv =>
      match kv.2 with
      | some v =>
        let fmt := format_date (CellVal.str v)
        if fmt ≠ [] then acc ++ [(kv.1, CellVal.str fmt)] else acc
      | Option.none => acc)
    []
  if cleaned ≠ [] then line_mrk p.1 cleaned '\\' '\\' else []

/-- `app.py` lines 391-396: one `020` entry's output line. -/
def lineFor020 (item : Entry020) : List Char :=
  line_mrk ("020".data)
    ([('a', CellVal.str item.a)] ++ (if cellTruthy item.c then [('c', item.c)] else []))
    '\\' '\\'

/-- `app.py` lines 356-426 (body of `generate_mrk` for one group): the
record's lines in emission order. -/
def mrkRecord (today lang : List Char) (n : Nat) (g : Group) : List (List Char) :=
  let rl := rec_lang (g.scalars ("041$a".data)) lang
  [build_ldr, ("=001  ".data) ++ pad9 n, build_008 today rl]
  ++ (g.e020.map lineFor020).filter (fun l => l ≠ [])
  ++ ((fieldsList g).map lineForField).filter (fun l => l ≠ [])
  ++ (g.e650.map (fun e =>
        line_mrk ("650".data) [('a', CellVal.str (pyReprDict650 e))] '\\' '\\')).filter
      (fun l => l ≠ [])
  ++ (g.r700.map (fun v =>
        line_mrk ("700".data) [('a', CellVal.str v)] '\\' '\\')).filter (fun l => l ≠ [])
  ++ (g.r710.map (fun v =>
        line_mrk ("710".data) [('a', CellVal.str v)] '\\' '\\')).filter (fun l => l ≠ [])
  ++ (g.holdings_pairs.map (fun ps =>
        line_mrk_pairs ("952".data) ps '\\' '\\')).filter (fun l => l ≠ [])

/-- The `952` lines a finished group actually emits. -/
def render952 (g : Group) : List (List Char) :=
  (g.holdings_pairs.map (fun ps => line_mrk_pairs ("952".data) ps '\\' '\\')).filter
    (fun l => l ≠ [])

/-- `generate_mrk` over all groups: each record's lines newline-terminated,
one blank separator line per record. -/
def generate_mrk (today lang : List Char) (groups : List (List Char × Group)) :
    List Char :=
  ((groups.enum).map (fun p =>
    ((mrkRecord today lang (p.1 + 1) p.2.2).map (fun l => l ++ ['\n'])).flatten
      ++ ['\n'])).flatten

/-- `str(h) if h is not None else ''` for a header cell
(`str(datetime)` renders as `YYYY-MM-DD HH:MM:SS`). -/
def pyStrCell : CellVal → List Char
  | CellVal.null => []
  | CellVal.str s => s
  | CellVal.date y m d hh mi ss =>
    strftimeYmd y m d ++ ' ' :: zpad 2 (natToDec hh) ++ ':' :: zpad 2 (natToDec mi)
      ++ ':' :: zpad 2 (natToDec ss)

/-- `app.py` line 157: header cleaning (strip, then NBSP fold). -/
def cleanHeader (h : List Char) : List Char := replaceNbsp (pyStrip h)

/-- `app.py` lines 151-156: the raw header text of every column, 1-based. -/
def raw_headers (first_row : List CellVal) : List (Nat × List Char) :=
  (first_row.enum).map (fun p => (p.1 + 1, pyStrCell p.2))

/-- `app.py` lines 154-159: the cleaned header map (non-empty cleans only). -/
def headersOf (first_row : List CellVal) : List (Nat × List Char) :=
  (raw_headers first_row).foldl
    (fun acc p =>
      let clean := cleanHeader p.2
      if clean ≠ [] then acc ++ [(p.1, clean)] else acc)
    []

/-- `re.match(r'^952\$[A-Za-z0-9]$', raw)` as a Boolean.  Python's `$`
also matches just before one trailing newline. -/
def match952 (raw : List Char) : Bool :=
  match raw with
  | ['9', '5', '2', '$', c] => c.isAlpha || c.isDigit
  | ['9', '5', '2', '$', c, '\n'] => c.isAlpha || c.isDigit
  | _ => false

/-- `re.search(r'\$([A-Za-z0-9])', raw)`: the first `$` immediately
followed by an ASCII alphanumeric, returning that character. -/
def searchSubfieldCode : List Char → Option Char
  | [] => Option.none
  | [_] => Option.none
  | a :: b :: rest =>
    if a = '$' ∧ (b.isAlpha || b.isDigit) then some b
    else searchSubfieldCode (b :: rest)

/-- `app.py` lines 162-169: detect the holdings (952) columns from the raw
header texts. -/
def holding_cols (raws : List (Nat × List Char)) : List (Nat × Char) :=
  raws.foldl
    (fun acc p =>
      if p.2 ≠ [] then
        if match952 p.2 then
          match searchSubfieldCode p.2 with
          | some c => acc ++ [(p.1, c)]
          | Option.none => acc
        else acc
      else acc)
    []

/-- `app.py` lines 128-439 (`upload_file` after the file/extension/load
checks): the conversion itself, from the sheet's rows to either an error
message or the `.mrk` text.  `today` stands for `datetime.now()`'s
`%y%m%d` rendering; `langForm` for `request.form.get('lang', 'und')`. -/
def upload_file (today langForm : List Char) (rows : List (List CellVal)) :
    Except (List Char) (List Char) :=
  let lang := stripClean langForm
  if rows.isEmpty then Except.error ("No data rows in Excel file.".data)
  else
    let first_row := rows.headD []
    let raws := raw_headers first_row
    let headers := headersOf first_row
    let hcols := holding_cols raws
    let data := rows.tail
    let gs := dedupGroups (accumulate headers hcols data).1
    Except.ok (generate_mrk today lang gs)

/-! ### Derived definitions used by the verification -/

/-- `stepRowFull` with the last-row flag erased: the sheet re-read of
`app.py` lines 199-205 recomputes the same (empty) pair list, so the flag
never changes the outcome. -/
def stepRow (headers : List (Nat × List Char)) (hcols : List (Nat × Char))
    (st : List (List Char × Group) × Nat) (row : List CellVal) :
    List (List Char × Group) × Nat :=
  if is_row_empty row then st
  else
    let rd := row_data headers row
    let pairs := computePairs hcols row
    let key := rowKey rd st.2
    let g0 := (lookupG st.1 key).getD emptyGroup
    (insertOrUpdate st.1 key (applyRow g0 rd pairs), st.2 + 1)

/-- `accumulate` as a plain fold of `stepRow` over the data rows. -/
def accumRows (headers : List (Nat × List Char)) (hcols : List (Nat × Char))
    (st : List (List Char × Group) × Nat) (rows : List (List CellVal)) :
    List (List Char × Group) × Nat :=
  rows.foldl (stepRow headers hcols) st

/-- One row's effect on the ordered list of group keys. -/
def keysStep (headers : List (Nat × List Char)) (ks : List (List Char))
    (row : List CellVal) : List (List Char) :=
  if is_row_empty row then ks
  else if pureRowKey headers row ∈ ks then ks else ks ++ [pureRowKey headers row]

/-- First-occurrence dedup relative to an already-seen list. -/
def dedupAux {α : Type} [DecidableEq α] (seen : List α) : List α → List α
  | [] => []
  | x :: xs => if x ∈ seen then dedupAux seen xs else x :: dedupAux (x :: seen) xs

/-- The keys of the rows a grouping pass actually processes. -/
def rowKeysOf (headers : List (Nat × List Char)) (rows : List (List CellVal)) :
    List (List Char) :=
  (rows.filter (fun r => !(is_row_empty r))).map (pureRowKey headers)

/-- Header map and rows of the C1 witness. -/
def c1wH : List (Nat × List Char) := [(1, ("245$a".data))]

/-- Header map of the C1 counterexample. -/
def c1H : List (Nat × List Char) := [(1, ("245$a".data)), (2, ("650$a".data))]

/-- C1 counterexample row 1: `650$a` holds a form feed, whose `norm` is
empty but which still yields the key segment `650$a_1:` instead of the
empty-marker segment `650$a_1:__EMPTY__`. -/
def c1r1 : List CellVal := [CellVal.str ("x".data), CellVal.str ("\x0C".data)]

/-- C1 counterexample row 2: `650$a` empty. -/
def c1r2 : List CellVal := [CellVal.str ("x".data), CellVal.str []]

/-- Header map of the C2 witness. -/
def c2wH : List (Nat × List Char) := [(1, ("245$a".data))]

/-- Whether a row contributes one holdings item to the group keyed `k`. -/
def contributes (headers : List (Nat × List Char)) (hcols : List (Nat × Char))
    (k : List Char) (row : List CellVal) : Bool :=
  !(is_row_empty row) && (pureRowKey headers row == k)
    && !(computePairs hcols row).isEmpty

/-- Holdings count of an optional group (0 when absent). -/
def holdCount (o : Option Group) : Nat :=
  match o with
  | some g0 => g0.holdings_pairs.length
  | Option.none => 0

/-- Header row, header map and holdings columns of the C3 scenario. -/
def c3FR : List CellVal := [CellVal.str ("245$a".data), CellVal.str ("952$p".data)]

def c3H : List (Nat × List Char) := headersOf c3FR

def c3HC : List (Nat × Char) := holding_cols (raw_headers c3FR)

/-- A row whose `952$p` cell is a lone non-breaking space: it formats to
`" "` (non-empty) at accumulation time but to `""` at render time. -/
def c3row : List CellVal := [CellVal.str ("x".data), CellVal.str ("\xA0".data)]

/-- Header map of the C5 scenario. -/
def c5H : List (Nat × List Char) := [(1, ("245$a".data)), (2, ("245$b".data))]

/-- C5 counterexample row A: the `245$a` value contains `'||'` and a forged
`245$b:` segment prefix. -/
def c5rA : List CellVal := [CellVal.str ("x||245$b:y".data), CellVal.str ("z".data)]

/-- C5 counterexample row B: same joined key, different segments. -/
def c5rB : List CellVal := [CellVal.str ("x".data), CellVal.str ("y||245$b:z".data)]

/-- The cleaned `020$a` tokens (`app.py` line 257). -/
def tokens020 (val_a : List Char) : List (List Char) :=
  (splitOnChar MULTI_SPLIT val_a).map stripClean

/-- The spec's formulation of the 020 entries: one entry per non-empty
token, the qualifier attached only at token index 0. -/
def split020Spec (val_a : List Char) (val_c : CellVal) : List Entry020 :=
  ((tokens020 val_a).enum).filterMap (fun p =>
    if p.2 ≠ [] then
      some (⟨p.2, if p.1 = 0 then val_c else CellVal.null⟩ : Entry020)
    else Option.none)

/-- The per-column detection of `app.py` lines 163-169 as an `Option`. -/
def hcFun (p : Nat × List Char) : Option (Nat × Char) :=
  if p.2 ≠ [] then
    if match952 p.2 then (searchSubfieldCode p.2).map (fun c => (p.1, c))
    else Option.none
  else Option.none

/-! ### Lemmas about the grouping key -/

theorem filter_ne_nil_of_any {l : List (List Char)} (h : l.any (fun x => x ≠ []) = true) :
    l.filter (fun x => x ≠ []) ≠ [] := by
  intro hnil
  rcases List.any_eq_true.mp h with ⟨x, hx, hpx⟩
  have hq := List.filter_eq_nil_iff.mp hnil x hx
  simp at hq hpx
  exact hpx hq

theorem keySegmentsFor_length_pos (fn v : List Char) :
    0 < (keySegmentsFor fn v).length := by
  unfold keySegmentsFor
  split
  · simp only [List.length_map, List.enum_length]
    split
    · next ha =>
      simp only [List.length_map]
      exact List.length_pos.mpr (filter_ne_nil_of_any ha)
    · simp
  · simp

theorem length_le_flatMap {α β : Type} (l : List α) (f : α → List β)
    (h : ∀ x ∈ l, 0 < (f x).length) : l.length ≤ (l.flatMap f).length := by
  induction l with
  | nil => simp
  | cons x xs ih =>
    simp only [List.flatMap_cons, List.length_append, List.length_cons]
    have h1 := h x (List.mem_cons_self x xs)
    have h2 := ih (fun y hy => h y (List.mem_cons_of_mem x hy))
    omega

theorem bibkeys_length : BIB_KEYS.length = 40 := by decide

theorem keyParts_length (rd : List (List Char × CellVal)) :
    40 ≤ (keyParts rd).length := by
  have := length_le_flatMap BIB_KEYS
    (fun fn => keySegmentsFor fn (format_date (rowGetKeyD rd fn)))
    (fun fn _ => keySegmentsFor_length_pos fn _)
  rw [bibkeys_length] at this
  exact this

theorem keyParts_ne_nil (rd : List (List Char × CellVal)) : keyParts rd ≠ [] := by
  intro h
  have := keyParts_length rd
  rw [h] at this
  simp at this

theorem rowKey_eq_intercalate (rd : List (List Char × CellVal)) (recid : Nat) :
    rowKey rd recid = List.intercalate ("||".data) (keyParts rd) := by
  unfold rowKey
  rw [if_pos (keyParts_ne_nil rd)]

theorem flatMap_congr_mem {α β : Type} {l : List α} {f g : α → List β}
    (h : ∀ x ∈ l, f x = g x) : l.flatMap f = l.flatMap g := by
  induction l with
  | nil => rfl
  | cons x xs ih =>
    simp only [List.flatMap_cons]
    rw [h x (List.mem_cons_self x xs), ih (fun y hy => h y (List.mem_cons_of_mem x hy))]

/-- The grouping key is a function of the per-field `format_date` outputs. -/
theorem keyParts_congr {rd1 rd2 : List (List Char × CellVal)}
    (h : ∀ fn ∈ BIB_KEYS, format_date (rowGetKeyD rd1 fn) = format_date (rowGetKeyD rd2 fn)) :
    keyParts rd1 = keyParts rd2 := by
  unfold keyParts
  exact flatMap_congr_mem (fun fn hfn => by rw [h fn hfn])

/-! ### The accumulation pass, normalized -/

theorem cellAtD_format_eq (row : List CellVal) (c : Nat) :
    format_date (cellAtD row c) = format_date (row.getD (c - 1) CellVal.null) := by
  unfold cellAtD
  split
  · next h =>
    rw [List.getD_eq_get _ _ h, List.getD_eq_get _ _ h]
  · next h =>
    rw [List.getD_eq_default _ _ (by omega)]
    decide

theorem computePairsSheet_eq (hcols : List (Nat × Char)) (row : List CellVal) :
    computePairsSheet hcols row = computePairs hcols row := by
  unfold computePairsSheet computePairs
  suffices hgen : ∀ acc, hcols.foldl
      (fun acc hc =>
        let val := format_date (row.getD (hc.1 - 1) CellVal.null)
        if val ≠ [] then acc ++ [(hc.2, val)] else acc) acc =
      hcols.foldl
      (fun acc hc =>
        let val := format_date (cellAtD row hc.1)
        if val ≠ [] then acc ++ [(hc.2, val)] else acc) acc by
    exact hgen []
  induction hcols with
  | nil => intro acc; rfl
  | cons hc rest ih =>
    intro acc
    simp only [List.foldl_cons]
    rw [← cellAtD_format_eq row hc.1]
    exact ih _

theorem stepRowFull_eq (headers : List (Nat × List Char)) (hcols : List (Nat × Char))
    (st : List (List Char × Group) × Nat) (row : List CellVal) (b : Bool) :
    stepRowFull headers hcols st row b = stepRow headers hcols st row := by
  unfold stepRowFull stepRow
  split
  · rfl
  · have hp : (if b && (computePairs hcols row).isEmpty then computePairsSheet hcols row
        else computePairs hcols row) = computePairs hcols row := by
      split
      · next h =>
        rw [computePairsSheet_eq]
      · rfl
    simp only [hp]

theorem foldl_enum_step (headers : List (Nat × List Char)) (hcols : List (Nat × Char))
    (N : Nat) :
    ∀ (l : List (List CellVal)) (n : Nat) (st : List (List Char × Group) × Nat),
      (List.enumFrom n l).foldl
        (fun st p => stepRowFull headers hcols st p.2 (p.1 == N)) st
      = l.foldl (stepRow headers hcols) st := by
  intro l
  induction l with
  | nil => intro n st; rfl
  | cons x xs ih =>
    intro n st
    rw [show List.enumFrom n (x :: xs) = (n, x) :: List.enumFrom (n + 1) xs from rfl]
    simp only [List.foldl_cons]
    rw [stepRowFull_eq headers hcols st x (n == N)]
    exact ih (n + 1) _

theorem accumulate_eq (headers : List (Nat × List Char)) (hcols : List (Nat × Char))
    (rows : List (List CellVal)) :
    accumulate headers hcols rows = accumRows headers hcols ([], 1) rows := by
  unfold accumulate accumRows
  exact foldl_enum_step headers hcols (rows.length - 1) rows 0 ([], 1)

/-! ### Group-key bookkeeping -/

theorem insertOrUpdate_keys (gs : List (List Char × Group)) (k : List Char) (g : Group) :
    (insertOrUpdate gs k g).map Prod.fst =
      if k ∈ gs.map Prod.fst then gs.map Prod.fst else gs.map Prod.fst ++ [k] := by
  induction gs with
  | nil => simp [insertOrUpdate]
  | cons p rest ih =>
    obtain ⟨k0, g0⟩ := p
    by_cases hk : k0 = k
    · subst hk
      simp [insertOrUpdate]
    · simp only [insertOrUpdate, if_neg hk, List.map_cons, ih]
      have hmem : (k ∈ k0 :: rest.map Prod.fst) ↔ (k ∈ rest.map Prod.fst) := by
        constructor
        · intro h
          rcases List.mem_cons.mp h with h1 | h2
          · exact absurd h1.symm hk
          · exact h2
        · exact List.mem_cons_of_mem k0
      by_cases hm : k ∈ rest.map Prod.fst
      · rw [if_pos hm, if_pos (hmem.mpr hm)]
      · rw [if_neg hm, if_neg (fun hc => hm (hmem.mp hc))]
        simp

theorem lookupG_isSome_of_mem (gs : List (List Char × Group)) (k : List Char)
    (h : k ∈ gs.map Prod.fst) : (lookupG gs k).isSome := by
  induction gs with
  | nil => simp at h
  | cons p rest ih =>
    simp only [List.map_cons, List.mem_cons] at h
    unfold lookupG
    by_cases hk : p.1 = k
    · obtain ⟨k0, g0⟩ := p
      simp only at hk
      simp [hk]
    · obtain ⟨k0, g0⟩ := p
      simp only at hk
      rcases h with h1 | h2
      · exact absurd h1.symm hk
      · simp only [if_neg hk]
        exact ih h2

theorem lookupG_insert_self (gs : List (List Char × Group)) (k : List Char) (g : Group) :
    lookupG (insertOrUpdate gs k g) k = some g := by
  induction gs with
  | nil => simp [insertOrUpdate, lookupG]
  | cons p rest ih =>
    obtain ⟨k0, g0⟩ := p
    unfold insertOrUpdate
    by_cases hk : k0 = k
    · simp [lookupG, hk]
    · rw [if_neg hk]
      unfold lookupG
      rw [if_neg hk]
      exact ih

theorem lookupG_insert_other (gs : List (List Char × Group)) (k k' : List Char) (g : Group)
    (hne : k' ≠ k) : lookupG (insertOrUpdate gs k g) k' = lookupG gs k' := by
  induction gs with
  | nil =>
    simp only [insertOrUpdate, lookupG]
    rw [if_neg (fun h => hne h.symm)]
  | cons p rest ih =>
    obtain ⟨k0, g0⟩ := p
    unfold insertOrUpdate
    by_cases hk : k0 = k
    · subst hk
      simp only [lookupG]
      rw [if_neg (fun h => hne h.symm), if_neg (fun h => hne h.symm)]
    · simp only [if_neg hk, lookupG]
      by_cases hk' : k0 = k'
      · rw [if_pos hk', if_pos hk']
      · rw [if_neg hk', if_neg hk']
        exact ih

theorem stepRow_keys (headers : List (Nat × List Char)) (hcols : List (Nat × Char))
    (st : List (List Char × Group) × Nat) (row : List CellVal) :
    ((stepRow headers hcols st row).1).map Prod.fst
      = keysStep headers (st.1.map Prod.fst) row := by
  unfold stepRow keysStep
  split
  · rfl
  · simp only [insertOrUpdate_keys, rowKey_eq_intercalate, pureRowKey]

theorem accumRows_keys (headers : List (Nat × List Char)) (hcols : List (Nat × Char)) :
    ∀ (rows : List (List CellVal)) (st : List (List Char × Group) × Nat),
      ((accumRows headers hcols st rows).1).map Prod.fst
        = rows.foldl (keysStep headers) (st.1.map Prod.fst) := by
  intro rows
  induction rows with
  | nil => intro st; rfl
  | cons r rs ih =>
    intro st
    show ((accumRows headers hcols (stepRow headers hcols st r) rs).1).map Prod.fst = _
    rw [ih (stepRow headers hcols st r), stepRow_keys]
    rfl

theorem dedupAux_congr {α : Type} [DecidableEq α] :
    ∀ (l s1 s2 : List α), (∀ a, a ∈ s1 ↔ a ∈ s2) → dedupAux s1 l = dedupAux s2 l := by
  intro l
  induction l with
  | nil => intro s1 s2 _; rfl
  | cons x xs ih =>
    intro s1 s2 h
    unfold dedupAux
    by_cases hx : x ∈ s1
    · rw [if_pos hx, if_pos ((h x).mp hx)]
      exact ih s1 s2 h
    · rw [if_neg hx, if_neg (fun hc => hx ((h x).mpr hc))]
      rw [ih (x :: s1) (x :: s2) (fun a => by
        simp only [List.mem_cons]
        exact or_congr Iff.rfl (h a))]

theorem mem_dedupAux {α : Type} [DecidableEq α] :
    ∀ (l seen : List α) (a : α), a ∈ dedupAux seen l ↔ a ∈ l ∧ a ∉ seen := by
  intro l
  induction l with
  | nil => intro seen a; simp [dedupAux]
  | cons x xs ih =>
    intro seen a
    unfold dedupAux
    by_cases hx : x ∈ seen
    · rw [if_pos hx, ih]
      simp only [List.mem_cons]
      constructor
      · rintro ⟨h1, h2⟩
        exact ⟨Or.inr h1, h2⟩
      · rintro ⟨h1 | h1, h2⟩
        · exact absurd (h1 ▸ hx) h2
        · exact ⟨h1, h2⟩
    · rw [if_neg hx]
      simp only [List.mem_cons, ih]
      constructor
      · rintro (h1 | ⟨h1, h2⟩)
        · subst h1
          exact ⟨Or.inl rfl, hx⟩
        · push_neg at h2
          exact ⟨Or.inr h1, h2.2⟩
      · rintro ⟨h1 | h1, h2⟩
        · exact Or.inl h1
        · by_cases hax : a = x
          · exact Or.inl hax
          · refine Or.inr ⟨h1, ?_⟩
            push_neg
            exact ⟨hax, h2⟩

theorem nodup_dedupAux {α : Type} [DecidableEq α] :
    ∀ (l seen : List α), (dedupAux seen l).Nodup := by
  intro l
  induction l with
  | nil => intro seen; simp [dedupAux]
  | cons x xs ih =>
    intro seen
    unfold dedupAux
    by_cases hx : x ∈ seen
    · rw [if_pos hx]
      exact ih seen
    · rw [if_neg hx]
      refine List.nodup_cons.mpr ⟨?_, ih (x :: seen)⟩
      intro hc
      exact ((mem_dedupAux xs (x :: seen) x).mp hc).2 (List.mem_cons_self x seen)

theorem dedupAux_cons {α : Type} [DecidableEq α] (seen : List α) (x : α) (xs : List α) :
    dedupAux seen (x :: xs)
      = if x ∈ seen then dedupAux seen xs else x :: dedupAux (x :: seen) xs := rfl

theorem foldl_keysStep_eq (headers : List (Nat × List Char)) :
    ∀ (rows : List (List CellVal)) (ks : List (List Char)),
      rows.foldl (keysStep headers) ks = ks ++ dedupAux ks (rowKeysOf headers rows) := by
  intro rows
  induction rows with
  | nil => intro ks; simp [rowKeysOf, dedupAux]
  | cons r rs ih =>
    intro ks
    by_cases he : is_row_empty r
    · have h1 : rowKeysOf headers (r :: rs) = rowKeysOf headers rs := by
        unfold rowKeysOf
        rw [List.filter_cons_of_neg (by simp [he])]
      have h2 : keysStep headers ks r = ks := by
        unfold keysStep
        rw [if_pos he]
      rw [List.foldl_cons, h2, ih ks, h1]
    · have h1 : rowKeysOf headers (r :: rs)
          = pureRowKey headers r :: rowKeysOf headers rs := by
        unfold rowKeysOf
        rw [List.filter_cons_of_pos (by simp [he])]
        rfl
      rw [List.foldl_cons, h1, dedupAux_cons]
      by_cases hm : pureRowKey headers r ∈ ks
      · have h2 : keysStep headers ks r = ks := by
          unfold keysStep
          rw [if_neg (by simp [he]), if_pos hm]
        rw [h2, ih ks, if_pos hm]
      · have h2 : keysStep headers ks r = ks ++ [pureRowKey headers r] := by
          unfold keysStep
          rw [if_neg (by simp [he]), if_neg hm]
        rw [h2, ih _, if_neg hm]
        rw [dedupAux_congr (rowKeysOf headers rs) (ks ++ [pureRowKey headers r])
          (pureRowKey headers r :: ks) (fun a => by
            simp only [List.mem_append, List.mem_singleton, List.mem_cons]
            tauto)]
        simp

/-- The ordered group-key list of a full pass is the first-occurrence dedup
of the processed rows' keys. -/
theorem accumulate_keys (headers : List (Nat × List Char)) (hcols : List (Nat × Char))
    (rows : List (List CellVal)) :
    ((accumulate headers hcols rows).1).map Prod.fst
      = dedupAux [] (rowKeysOf headers rows) := by
  rw [accumulate_eq, accumRows_keys]
  simpa using foldl_keysStep_eq headers rows []

/-- C1 (amended): the grouping key of a row is a pure function of the
per-field `format_date` outputs of its key fields, so rows whose key-field
values are identical after date-formatting get identical keys; every
processed (non-empty) row's key owns a group in the result; and permuting
the input rows only permutes the group list — which rows co-group is
order-independent. -/
theorem c1_grouping_key (headers : List (Nat × List Char)) (hcols : List (Nat × Char)) :
    (∀ r1 r2 : List CellVal,
      (∀ fn ∈ BIB_KEYS,
        format_date (rowGetKeyD (row_data headers r1) fn)
          = format_date (rowGetKeyD (row_data headers r2) fn)) →
      pureRowKey headers r1 = pureRowKey headers r2) ∧
    (∀ (rows : List (List CellVal)) (r : List CellVal),
      r ∈ rows → is_row_empty r = false →
      ((lookupG (accumulate headers hcols rows).1 (pureRowKey headers r)).isSome = true)) ∧
    (∀ rows1 rows2 : List (List CellVal), rows1.Perm rows2 →
      ((accumulate headers hcols rows1).1.map Prod.fst).Perm
        ((accumulate headers hcols rows2).1.map Prod.fst)) := by
  refine ⟨?_, ?_, ?_⟩
  · intro r1 r2 h
    unfold pureRowKey
    rw [keyParts_congr h]
  · intro rows r hr hne
    apply lookupG_isSome_of_mem
    rw [accumulate_keys]
    rw [mem_dedupAux]
    refine ⟨?_, by simp⟩
    unfold rowKeysOf
    exact List.mem_map_of_mem _ (List.mem_filter.mpr ⟨hr, by simp [hne]⟩)
  · intro rows1 rows2 hperm
    rw [accumulate_keys, accumulate_keys]
    have h1 : (rowKeysOf headers rows1).Perm (rowKeysOf headers rows2) :=
      (hperm.filter _).map _
    refine (List.perm_ext_iff_of_nodup (nodup_dedupAux _ _) (nodup_dedupAux _ _)).mpr ?_
    intro a
    rw [mem_dedupAux, mem_dedupAux]
    simp only [List.not_mem_nil, not_false_iff, and_true]
    exact h1.mem_iff

theorem c1_grouping_key_witness :
    pureRowKey c1wH [CellVal.str (" a".data)] = pureRowKey c1wH [CellVal.str ("a".data)] ∧
    ((lookupG (accumulate c1wH [] [[CellVal.str ("a".data)], [CellVal.str ("b".data)]]).1
        (pureRowKey c1wH [CellVal.str ("b".data)])).isSome = true) ∧
    ((accumulate c1wH [] [[CellVal.str ("a".data)], [CellVal.str ("b".data)]]).1.map
        Prod.fst).Perm
      ((accumulate c1wH [] [[CellVal.str ("b".data)], [CellVal.str ("a".data)]]).1.map
        Prod.fst) :=
  ⟨(c1_grouping_key c1wH []).1 _ _ (by decide),
   (c1_grouping_key c1wH []).2.1 _ _ (by decide) (by decide),
   (c1_grouping_key c1wH []).2.2 _ _ (List.Perm.swap _ _ _)⟩

/-- C1 is false as stated: these two rows agree, field by field, after
normalization (trim, NFKC, lowercase, whitespace collapse) on every key
field, yet their grouping keys differ and they land in two distinct
groups. -/
theorem c1_counterexample :
    (BIB_KEYS.all (fun fn =>
      norm (format_date (rowGetKeyD (row_data c1H c1r1) fn))
        == norm (format_date (rowGetKeyD (row_data c1H c1r2) fn))) = true) ∧
    pureRowKey c1H c1r1 ≠ pureRowKey c1H c1r2 ∧
    ((accumulate c1H [] [c1r1, c1r2]).1).length = 2 := by
  refine ⟨by decide, by decide, by decide⟩

/-! ### Scalar merge ("first non-empty wins") -/

theorem applyRow020_scalars (g : Group) (rd : List (List Char × CellVal)) :
    (applyRow020 g rd).scalars = g.scalars := by
  unfold applyRow020
  dsimp only
  split <;> rfl

theorem applyRow650_scalars (g : Group) (rd : List (List Char × CellVal)) :
    (applyRow650 g rd).scalars = g.scalars := by
  unfold applyRow650
  dsimp only
  split <;> rfl

theorem applyRow700_scalars (g : Group) (rd : List (List Char × CellVal)) :
    (applyRow700 g rd).scalars = g.scalars := by
  unfold applyRow700
  dsimp only
  split <;> rfl

theorem applyRow710_scalars (g : Group) (rd : List (List Char × CellVal)) :
    (applyRow710 g rd).scalars = g.scalars := by
  unfold applyRow710
  dsimp only
  split <;> rfl

theorem applyRowHoldings_scalars (g : Group) (pairs : List (Char × List Char)) :
    (applyRowHoldings g pairs).scalars = g.scalars := by
  unfold applyRowHoldings
  split <;> rfl

theorem applyRow_scalars (g : Group) (rd : List (List Char × CellVal))
    (pairs : List (Char × List Char)) (fn : List Char) :
    (applyRow g rd pairs).scalars fn
      = if fn ∈ SCALAR_FIELDS then first_nonempty (g.scalars fn) (rowGet rd fn)
        else g.scalars fn := by
  unfold applyRow
  rw [applyRowHoldings_scalars]
  show (if fn ∈ SCALAR_FIELDS then
      first_nonempty ((applyRow710 (applyRow700 (applyRow650 (applyRow020 g rd) rd) rd) rd).scalars fn)
        (rowGet rd fn)
    else (applyRow710 (applyRow700 (applyRow650 (applyRow020 g rd) rd) rd) rd).scalars fn) = _
  rw [applyRow710_scalars, applyRow700_scalars, applyRow650_scalars, applyRow020_scalars]

theorem first_nonempty_keeps (s : List Char) (v : CellVal) (hs : s ≠ []) :
    first_nonempty (some s) v = some s := by
  unfold first_nonempty
  simp [hs]

theorem stepRow_scalar_persist (headers : List (Nat × List Char))
    (hcols : List (Nat × Char)) (st : List (List Char × Group) × Nat)
    (row : List CellVal) (k fn s : List Char) (hs : s ≠ [])
    (h : (lookupG st.1 k).bind (fun g => g.scalars fn) = some s) :
    (lookupG (stepRow headers hcols st row).1 k).bind (fun g => g.scalars fn) = some s := by
  unfold stepRow
  split
  · exact h
  · simp only
    by_cases hk : k = rowKey (row_data headers row) st.2
    · obtain ⟨g, hg, hgs⟩ :
          ∃ g, lookupG st.1 k = some g ∧ g.scalars fn = some s := by
        cases hl : lookupG st.1 k with
        | none => rw [hl] at h; simp at h
        | some g =>
          rw [hl] at h
          simp only [Option.some_bind] at h
          exact ⟨g, rfl, h⟩
      rw [← hk, lookupG_insert_self, hg]
      simp only [Option.getD_some, Option.some_bind]
      rw [applyRow_scalars]
      split
      · rw [hgs]
        exact first_nonempty_keeps s _ hs
      · exact hgs
    · rw [lookupG_insert_other _ _ _ _ hk]
      exact h

theorem accumRows_scalar_persist (headers : List (Nat × List Char))
    (hcols : List (Nat × Char)) (rows2 : List (List CellVal)) :
    ∀ (st : List (List Char × Group) × Nat) (k fn s : List Char), s ≠ [] →
      (lookupG st.1 k).bind (fun g => g.scalars fn) = some s →
      (lookupG (accumRows headers hcols st rows2).1 k).bind (fun g => g.scalars fn)
        = some s := by
  induction rows2 with
  | nil => intro st k fn s _ h; exact h
  | cons r rs ih =>
    intro st k fn s hs h
    exact ih _ k fn s hs (stepRow_scalar_persist headers hcols st r k fn s hs h)

/-- C2: a non-repeatable (scalar) subfield, once stored non-empty, is never
changed by any later row (`first_nonempty` keeps a non-empty stored value,
and extending the row list never alters a non-empty stored scalar); and the
merge of the value sequence `"", "A", "B"` stores `"A"`. -/
theorem c2_scalar_first_nonempty_wins :
    (∀ (s : List Char) (v : CellVal), s ≠ [] → first_nonempty (some s) v = some s) ∧
    (∀ (headers : List (Nat × List Char)) (hcols : List (Nat × Char))
       (rows1 rows2 : List (List CellVal)) (k fn s : List Char),
      ((lookupG (accumulate headers hcols rows1).1 k).bind (fun g => g.scalars fn))
        = some s →
      s ≠ [] →
      ((lookupG (accumulate headers hcols (rows1 ++ rows2)).1 k).bind
        (fun g => g.scalars fn)) = some s) ∧
    (List.foldl first_nonempty Option.none
      [CellVal.str [], CellVal.str ("A".data), CellVal.str ("B".data)]
      = some ("A".data)) := by
  refine ⟨first_nonempty_keeps, ?_, by decide⟩
  intro headers hcols rows1 rows2 k fn s h hs
  rw [accumulate_eq] at h ⊢
  unfold accumRows at h ⊢
  rw [List.foldl_append]
  exact accumRows_scalar_persist headers hcols rows2 _ k fn s hs h

theorem c2_scalar_witness :
    first_nonempty (some ("A".data)) CellVal.null = some ("A".data) ∧
    ((lookupG (accumulate c2wH []
        ([[CellVal.str ("A".data)]] ++ [[CellVal.str ("a".data)]])).1
      (pureRowKey c2wH [CellVal.str ("A".data)])).bind
        (fun g => g.scalars ("245$a".data))) = some ("A".data) :=
  ⟨(c2_scalar_first_nonempty_wins).1 _ CellVal.null (by decide),
   (c2_scalar_first_nonempty_wins).2.1 c2wH [] [[CellVal.str ("A".data)]]
     [[CellVal.str ("a".data)]] _ _ _ (by decide) (by decide)⟩

/-! ### Holdings item counting -/

theorem applyRow020_holdings (g : Group) (rd : List (List Char × CellVal)) :
    (applyRow020 g rd).holdings_pairs = g.holdings_pairs := by
  unfold applyRow020
  dsimp only
  split <;> rfl

theorem applyRow650_holdings (g : Group) (rd : List (List Char × CellVal)) :
    (applyRow650 g rd).holdings_pairs = g.holdings_pairs := by
  unfold applyRow650
  dsimp only
  split <;> rfl

theorem applyRow700_holdings (g : Group) (rd : List (List Char × CellVal)) :
    (applyRow700 g rd).holdings_pairs = g.holdings_pairs := by
  unfold applyRow700
  dsimp only
  split <;> rfl

theorem applyRow710_holdings (g : Group) (rd : List (List Char × CellVal)) :
    (applyRow710 g rd).holdings_pairs = g.holdings_pairs := by
  unfold applyRow710
  dsimp only
  split <;> rfl

theorem applyRowScalars_holdings (g : Group) (rd : List (List Char × CellVal)) :
    (applyRowScalars g rd).holdings_pairs = g.holdings_pairs := rfl

theorem applyRow_holdings (g : Group) (rd : List (List Char × CellVal))
    (pairs : List (Char × List Char)) :
    (applyRow g rd pairs).holdings_pairs
      = g.holdings_pairs ++ (if pairs ≠ [] then [pairs] else []) := by
  unfold applyRow applyRowHoldings
  split
  · show (applyRowScalars _ rd).holdings_pairs ++ [pairs] = _
    rw [applyRowScalars_holdings, applyRow710_holdings, applyRow700_holdings,
        applyRow650_holdings, applyRow020_holdings]
  · rw [List.append_nil]
    rw [applyRowScalars_holdings, applyRow710_holdings, applyRow700_holdings,
        applyRow650_holdings, applyRow020_holdings]

theorem holdCount_some (g : Group) : holdCount (some g) = g.holdings_pairs.length := rfl

theorem accumRows_holdings_count (headers : List (Nat × List Char))
    (hcols : List (Nat × Char)) :
    ∀ (rows : List (List CellVal)) (st : List (List Char × Group) × Nat)
      (k : List Char) (g : Group),
      lookupG (accumRows headers hcols st rows).1 k = some g →
      g.holdings_pairs.length
        = holdCount (lookupG st.1 k) + rows.countP (contributes headers hcols k) := by
  intro rows
  induction rows with
  | nil =>
    intro st k g h
    simp only [accumRows, List.foldl_nil] at h
    rw [h]
    simp [holdCount]
  | cons r rs ih =>
    intro st k g h
    have hstep : accumRows headers hcols st (r :: rs)
        = accumRows headers hcols (stepRow headers hcols st r) rs := rfl
    rw [hstep] at h
    rw [ih (stepRow headers hcols st r) k g h, List.countP_cons]
    suffices hsuff : holdCount (lookupG (stepRow headers hcols st r).1 k)
        = holdCount (lookupG st.1 k)
          + (if contributes headers hcols k r = true then 1 else 0) by
      rw [hsuff]
      omega
    by_cases he : is_row_empty r
    · have h1 : stepRow headers hcols st r = st := by
        unfold stepRow
        rw [if_pos he]
      have h2 : contributes headers hcols k r = false := by
        unfold contributes
        rw [he]
        rfl
      rw [h1, h2]
      simp
    · have hkey : rowKey (row_data headers r) st.2 = pureRowKey headers r :=
        rowKey_eq_intercalate _ _
      have h1 : (stepRow headers hcols st r).1
          = insertOrUpdate st.1 (pureRowKey headers r)
              (applyRow ((lookupG st.1 (pureRowKey headers r)).getD emptyGroup)
                (row_data headers r) (computePairs hcols r)) := by
        unfold stepRow
        rw [if_neg he]
        simp only [hkey]
      have he' : is_row_empty r = false := by
        simpa using he
      by_cases hk : k = pureRowKey headers r
      · rw [h1, hk, lookupG_insert_self, holdCount_some, applyRow_holdings,
            List.length_append]
        have h2 : contributes headers hcols (pureRowKey headers r) r
            = !(computePairs hcols r).isEmpty := by
          unfold contributes
          rw [he']
          simp
        rw [h2]
        cases hl : lookupG st.1 (pureRowKey headers r) with
        | none =>
          simp only [Option.getD_none, holdCount]
          by_cases hp : computePairs hcols r = [] <;> simp [hp, emptyGroup]
        | some g0 =>
          simp only [Option.getD_some, holdCount]
          by_cases hp : computePairs hcols r = [] <;> simp [hp]
      · have h2 : contributes headers hcols k r = false := by
          unfold contributes
          have hbk : (pureRowKey headers r == k) = false := by
            simp only [beq_eq_false_iff_ne, ne_eq]
            exact fun hc => hk hc.symm
          rw [hbk]
          simp
        rw [h1, lookupG_insert_other _ _ _ _ hk, h2]
        simp

/-- C3 (amended): the number of holdings items of a finished group equals
the number of processed rows with that key whose holdings pair list is
non-empty — items are never merged or deduplicated (the dedup pass leaves
`holdings_pairs` untouched); and the group emits one `952` line per item
whose pair list still formats non-empty at render time. -/
theorem c3_holdings_count :
    (∀ (headers : List (Nat × List Char)) (hcols : List (Nat × Char))
       (rows : List (List CellVal)) (k : List Char) (g : Group),
      lookupG (accumulate headers hcols rows).1 k = some g →
      g.holdings_pairs.length = rows.countP (contributes headers hcols k)) ∧
    (∀ g : Group, (dedupGroup g).holdings_pairs = g.holdings_pairs) ∧
    (∀ g : Group, (render952 g).length
        = (g.holdings_pairs.filter
            (fun ps => line_mrk_pairs ("952".data) ps '\\' '\\' ≠ [])).length) := by
  refine ⟨?_, fun g => rfl, ?_⟩
  · intro headers hcols rows k g h
    rw [accumulate_eq] at h
    have := accumRows_holdings_count headers hcols rows ([], 1) k g h
    simpa [holdCount, lookupG] using this
  · intro g
    unfold render952
    rw [List.filter_map, List.length_map]
    rfl

/-- C3 is false as stated: three identical contributing rows yield three
separate holdings items with identical pair sets, yet zero output `952`
lines — the shared pair value `" "` formats to empty when the line is
rendered. -/
theorem c3_counterexample :
    ((accumulate c3H c3HC [c3row, c3row, c3row]).1).map (fun p => p.2.holdings_pairs)
      = [[[('p', (" ".data))], [('p', (" ".data))], [('p', (" ".data))]]] ∧
    ((accumulate c3H c3HC [c3row, c3row, c3row]).1).map (fun p => render952 p.2)
      = [[]] := by
  exact ⟨by decide, by decide⟩

theorem c3_holdings_witness :
    ((lookupG (accumulate c3H c3HC [c3row]).1 (pureRowKey c3H c3row)).map
      (fun g => g.holdings_pairs.length))
      = some ([c3row].countP (contributes c3H c3HC (pureRowKey c3H c3row))) := by
  cases hl : lookupG (accumulate c3H c3HC [c3row]).1 (pureRowKey c3H c3row) with
  | none =>
    have hs : (lookupG (accumulate c3H c3HC [c3row]).1 (pureRowKey c3H c3row)).isSome
        = true := by decide
    rw [hl] at hs
    simp at hs
  | some g =>
    simp only [Option.map_some']
    rw [(c3_holdings_count).1 c3H c3HC [c3row] _ g hl]

/-! ### Key-segment joining -/

theorem intercalate_single (sep a : List Char) : List.intercalate sep [a] = a := by
  simp [List.intercalate]

theorem intercalate_cons2 (sep a b : List Char) (t : List (List Char)) :
    List.intercalate sep (a :: b :: t) = a ++ sep ++ List.intercalate sep (b :: t) := by
  simp [List.intercalate, List.intersperse]

theorem takeWhile_sepfree (r : List Char) :
    ∀ (s : List Char), '|' ∉ s →
      (s ++ '|' :: r).takeWhile (fun c => c ≠ '|') = s := by
  intro s
  induction s with
  | nil => intro _; simp [List.takeWhile_cons]
  | cons c cs ih =>
    intro hs
    have hc : c ≠ '|' := fun h => hs (h ▸ List.mem_cons_self c cs)
    have hcs : '|' ∉ cs := fun h => hs (List.mem_cons_of_mem c h)
    simp only [List.cons_append, List.takeWhile_cons]
    rw [if_pos (by simp [hc]), ih hcs]

theorem dropWhile_sepfree (r : List Char) :
    ∀ (s : List Char), '|' ∉ s →
      (s ++ '|' :: r).dropWhile (fun c => c ≠ '|') = '|' :: r := by
  intro s
  induction s with
  | nil => intro _; simp [List.dropWhile_cons]
  | cons c cs ih =>
    intro hs
    have hc : c ≠ '|' := fun h => hs (h ▸ List.mem_cons_self c cs)
    have hcs : '|' ∉ cs := fun h => hs (List.mem_cons_of_mem c h)
    simp only [List.cons_append, List.dropWhile_cons]
    rw [if_pos (by simp [hc])]
    exact ih hcs

/-- Heads and tails of a `'||'`-join of `'|'`-free segments are recoverable,
so the join is injective on non-empty lists of `'|'`-free segments. -/
theorem intercalate_barbar_inj :
    ∀ (xs ys : List (List Char)), xs ≠ [] → ys ≠ [] →
      (∀ s ∈ xs, '|' ∉ s) → (∀ s ∈ ys, '|' ∉ s) →
      List.intercalate ("||".data) xs = List.intercalate ("||".data) ys → xs = ys := by
  intro xs
  induction xs with
  | nil => intro ys h; exact absurd rfl h
  | cons x xt ih =>
    intro ys _ hys hxf hyf heq
    cases ys with
    | nil => exact absurd rfl hys
    | cons y yt =>
      have hx1 : '|' ∉ x := hxf x (List.mem_cons_self x xt)
      have hy1 : '|' ∉ y := hyf y (List.mem_cons_self y yt)
      cases xt with
      | nil =>
        cases yt with
        | nil =>
          rw [intercalate_single, intercalate_single] at heq
          rw [heq]
        | cons y2 yt2 =>
          rw [intercalate_single, intercalate_cons2] at heq
          exfalso
          apply hx1
          rw [heq]
          refine List.mem_append.mpr (Or.inl ?_)
          refine List.mem_append.mpr (Or.inr ?_)
          exact List.mem_cons_self '|' ['|']
      | cons x2 xt2 =>
        cases yt with
        | nil =>
          rw [intercalate_cons2, intercalate_single] at heq
          exfalso
          apply hy1
          rw [← heq]
          refine List.mem_append.mpr (Or.inl ?_)
          refine List.mem_append.mpr (Or.inr ?_)
          exact List.mem_cons_self '|' ['|']
        | cons y2 yt2 =>
          rw [intercalate_cons2, intercalate_cons2] at heq
          have hshape : ∀ (s rest : List Char), '|' ∉ s →
              s ++ ("||".data) ++ rest = s ++ '|' :: '|' :: rest := by
            intro s rest _
            simp
          rw [hshape x _ hx1, hshape y _ hy1] at heq
          have hxeq : x = y := by
            have t1 := takeWhile_sepfree ('|' :: List.intercalate ("||".data) (x2 :: xt2)) x hx1
            have t2 := takeWhile_sepfree ('|' :: List.intercalate ("||".data) (y2 :: yt2)) y hy1
            rw [← t1, ← t2, heq]
          have hrest : List.intercalate ("||".data) (x2 :: xt2)
              = List.intercalate ("||".data) (y2 :: yt2) := by
            have d1 := dropWhile_sepfree ('|' :: List.intercalate ("||".data) (x2 :: xt2)) x hx1
            have d2 := dropWhile_sepfree ('|' :: List.intercalate ("||".data) (y2 :: yt2)) y hy1
            have hdw : ('|' :: '|' :: List.intercalate ("||".data) (x2 :: xt2))
                = ('|' :: '|' :: List.intercalate ("||".data) (y2 :: yt2)) := by
              rw [← d1, ← d2, heq]
            simpa using hdw
          have := ih (y2 :: yt2) (by simp) (by simp)
            (fun s hsm => hxf s (List.mem_cons_of_mem x hsm))
            (fun s hsm => hyf s (List.mem_cons_of_mem y hsm))
            hrest
          rw [hxeq, this]

/-- C5 (amended): the `'||'` join of the key segments is injective only on
rows all of whose key segments are `'|'`-free — for such rows, equal
grouping keys force equal segment lists.  (Unescaped values may contain
`'|'`, so the separator can occur inside a segment; see the
counterexample.) -/
theorem c5_join_injective_when_sepfree (headers : List (Nat × List Char))
    (r1 r2 : List CellVal)
    (h1 : ∀ s ∈ keyParts (row_data headers r1), '|' ∉ s)
    (h2 : ∀ s ∈ keyParts (row_data headers r2), '|' ∉ s)
    (heq : pureRowKey headers r1 = pureRowKey headers r2) :
    keyParts (row_data headers r1) = keyParts (row_data headers r2) :=
  intercalate_barbar_inj _ _ (keyParts_ne_nil _) (keyParts_ne_nil _) h1 h2 heq

/-- C5 is false as stated: a key segment can contain the separator `'||'`
(values are not escaped), and two distinct segment lists can join to the
same grouping key, so the two rows co-group despite different field
values. -/
theorem c5_counterexample :
    (("245$a:x||245$b:y".data) ∈ keyParts (row_data c5H c5rA)) ∧
    keyParts (row_data c5H c5rA) ≠ keyParts (row_data c5H c5rB) ∧
    pureRowKey c5H c5rA = pureRowKey c5H c5rB := by
  exact ⟨by decide, by decide, by decide⟩

theorem c5_join_injective_witness :
    keyParts (row_data c5H [CellVal.str ("A".data)])
      = keyParts (row_data c5H [CellVal.str ("a".data)]) :=
  c5_join_injective_when_sepfree c5H _ _ (by decide) (by decide) (by decide)

/-! ### Guarded fold/filterMap correspondences -/

theorem enumFrom_filter_snd_length {α : Type} (q : α → Bool) :
    ∀ (l : List α) (n : Nat),
      ((List.enumFrom n l).filter (fun p => q p.2)).length = (l.filter q).length := by
  intro l
  induction l with
  | nil => intro n; rfl
  | cons x xs ih =>
    intro n
    rw [show List.enumFrom n (x :: xs) = (n, x) :: List.enumFrom (n + 1) xs from rfl]
    simp only [List.filter_cons]
    by_cases hq : q x
    · rw [if_pos (by simpa using hq), if_pos hq]
      simp [ih (n + 1)]
    · rw [if_neg (by simpa using hq), if_neg hq]
      exact ih (n + 1)

/-! ### C9: the 020 split -/

theorem entries_from_ge1_null (c : CellVal) :
    ∀ (ts : List (List Char)) (n : Nat), 1 ≤ n →
      ∀ e ∈ (List.enumFrom n ts).filterMap (fun p =>
          if p.2 ≠ [] then
            some (⟨p.2, if p.1 = 0 then c else CellVal.null⟩ : Entry020)
          else Option.none),
        e.c = CellVal.null := by
  intro ts
  induction ts with
  | nil => intro n _ e he; simp at he
  | cons t ts ih =>
    intro n hn e he
    rw [show List.enumFrom n (t :: ts) = (n, t) :: List.enumFrom (n + 1) ts from rfl] at he
    rw [List.filterMap_cons] at he
    by_cases ht : t ≠ []
    · rw [if_pos ht] at he
      rcases List.mem_cons.mp he with h1 | h2
      · rw [h1]
        have hn0 : n ≠ 0 := by omega
        simp [hn0]
      · exact ih (n + 1) (by omega) e h2
    · rw [if_neg ht] at he
      exact ih (n + 1) (by omega) e he

/-- C9: the 020 accumulation splits the primary value into cleaned tokens,
appends one entry per non-empty token, and attaches the `020$c` qualifier
only to the token at index 0 (entries after the first carry none); the
concrete example `"111-2|222-3"` with qualifier `"avail"` yields exactly
the two stated entries. -/
theorem c9_020_split :
    (∀ (a : List Char) (c : CellVal), split020 a c = split020Spec a c) ∧
    (∀ (a : List Char) (c : CellVal),
      (split020 a c).length = ((tokens020 a).filter (fun t => t ≠ [])).length) ∧
    (∀ (a : List Char) (c : CellVal) (e : Entry020),
      e ∈ (split020 a c).drop 1 → e.c = CellVal.null) ∧
    (split020 ("111-2|222-3".data) (CellVal.str ("avail".data))
      = [⟨("111-2".data), CellVal.str ("avail".data)⟩,
         ⟨("222-3".data), CellVal.null⟩]) := by
  have hfold : ∀ (c : CellVal) (l : List (Nat × List Char)) (acc : List Entry020),
      l.foldl (fun acc p =>
          if p.2 ≠ [] then
            acc ++ [(⟨p.2, if p.1 = 0 then c else CellVal.null⟩ : Entry020)]
          else acc) acc
        = acc ++ l.filterMap (fun p =>
            if p.2 ≠ [] then
              some (⟨p.2, if p.1 = 0 then c else CellVal.null⟩ : Entry020)
            else Option.none) := by
    intro c l
    induction l with
    | nil => intro acc; simp
    | cons x xs ih =>
      intro acc
      rw [List.foldl_cons, List.filterMap_cons]
      by_cases hp : x.2 = []
      · rw [if_neg (by simp [hp]), if_neg (by simp [hp]), ih]
      · rw [if_pos hp, if_pos hp, ih]
        simp
  have hlen : ∀ (f : Nat × List Char → Entry020) (l : List (Nat × List Char)),
      (l.filterMap (fun p => if p.2 ≠ [] then some (f p) else Option.none)).length
        = (l.filter (fun p => p.2 ≠ [])).length := by
    intro f l
    induction l with
    | nil => rfl
    | cons x xs ih =>
      rw [List.filterMap_cons, List.filter_cons]
      by_cases hp : x.2 = []
      · rw [if_neg (fun hc => hc hp), if_neg (by simpa using hp)]
        exact ih
      · rw [if_pos hp, if_pos (by simpa using hp)]
        dsimp only
        simp only [List.length_cons]
        rw [ih]
  have hmain : ∀ (a : List Char) (c : CellVal), split020 a c = split020Spec a c := by
    intro a c
    unfold split020 split020Spec tokens020
    rw [hfold c]
    simp
  refine ⟨hmain, ?_, ?_, by decide⟩
  · intro a c
    rw [hmain]
    unfold split020Spec
    rw [hlen (fun p => ⟨p.2, if p.1 = 0 then c else CellVal.null⟩)]
    rw [show (tokens020 a).enum = List.enumFrom 0 (tokens020 a) from rfl]
    exact enumFrom_filter_snd_length (fun t => decide (t ≠ [])) (tokens020 a) 0
  · intro a c e he
    rw [hmain] at he
    unfold split020Spec at he
    rcases hts : tokens020 a with _ | ⟨t, ts⟩
    · rw [hts] at he
      simp at he
    · rw [hts] at he
      rw [show List.enum (t :: ts) = (0, t) :: List.enumFrom 1 ts from rfl] at he
      rw [List.filterMap_cons] at he
      by_cases ht : t ≠ []
      · rw [if_pos ht] at he
        rw [List.drop_one] at he
        simp only [List.tail_cons] at he
        exact entries_from_ge1_null c ts 1 (by omega) e he
      · rw [if_neg ht] at he
        exact entries_from_ge1_null c ts 1 (by omega) e (List.mem_of_mem_drop he)

theorem c9_020_split_witness :
    split020 ("x|y|z".data) (CellVal.str ("q".data))
      = split020Spec ("x|y|z".data) (CellVal.str ("q".data)) ∧
    (split020 ("x|y|z".data) (CellVal.str ("q".data))).length
      = ((tokens020 ("x|y|z".data)).filter (fun t => t ≠ [])).length ∧
    (⟨("y".data), CellVal.null⟩ : Entry020).c = CellVal.null :=
  ⟨(c9_020_split).1 _ _,
   (c9_020_split).2.1 _ _,
   (c9_020_split).2.2.1 ("x|y|z".data) (CellVal.str ("q".data)) _ (by decide)⟩

/-! ### C7: holdings-column detection -/

theorem holding_cols_eq_filterMap (raws : List (Nat × List Char)) :
    holding_cols raws = raws.filterMap hcFun := by
  unfold holding_cols
  suffices hgen : ∀ (l : List (Nat × List Char)) (acc : List (Nat × Char)),
      l.foldl
        (fun acc p =>
          if p.2 ≠ [] then
            if match952 p.2 then
              match searchSubfieldCode p.2 with
              | some c => acc ++ [(p.1, c)]
              | Option.none => acc
            else acc
          else acc) acc
        = acc ++ l.filterMap hcFun by
    simpa using hgen raws []
  intro l
  induction l with
  | nil => intro acc; simp
  | cons p ps ih =>
    intro acc
    simp only [List.foldl_cons, List.filterMap_cons]
    by_cases h1 : p.2 ≠ []
    · rw [if_pos h1]
      by_cases h2 : match952 p.2
      · rw [if_pos h2]
        cases hs : searchSubfieldCode p.2 with
        | none =>
          rw [ih]
          unfold hcFun
          rw [if_pos h1, if_pos h2, hs]
          rfl
        | some c =>
          rw [ih]
          unfold hcFun
          rw [if_pos h1, if_pos h2, hs]
          simp
      · rw [if_neg h2, ih]
        unfold hcFun
        rw [if_pos h1, if_neg h2]
    · rw [if_neg h1, ih]
      unfold hcFun
      rw [if_neg h1]

theorem match952_ne_nil {raw : List Char} (h : match952 raw = true) : raw ≠ [] := by
  intro hn
  rw [hn] at h
  simp [match952] at h

/-- C7 (amended): a column is registered as a holdings column iff its RAW
header text (no trimming or cleaning applied) matches
`^952\$[A-Za-z0-9]$` — Python's `$` also tolerating one trailing
newline — with the registered code being the one found by
`re.search(r'\$([A-Za-z0-9])')`; detection reads only the header row. -/
theorem c7_holdings_detection (first_row : List CellVal) (col : Nat) (code : Char) :
    ((col, code) ∈ holding_cols (raw_headers first_row)) ↔
      (∃ raw, (col, raw) ∈ raw_headers first_row ∧ match952 raw = true ∧
        searchSubfieldCode raw = some code) := by
  rw [holding_cols_eq_filterMap, List.mem_filterMap]
  constructor
  · rintro ⟨⟨c0, raw⟩, hmem, hf⟩
    unfold hcFun at hf
    by_cases h1 : raw ≠ []
    · rw [if_pos h1] at hf
      by_cases h2 : match952 raw
      · rw [if_pos h2] at hf
        cases hs : searchSubfieldCode raw with
        | none => rw [hs] at hf; simp at hf
        | some c =>
          rw [hs] at hf
          simp only [Option.map_some'] at hf
          injection hf with hf
          have hc0 : c0 = col := congrArg Prod.fst hf
          have hcc : c = code := congrArg Prod.snd hf
          subst hc0
          exact ⟨raw, hmem, h2, by rw [hs, hcc]⟩
      · rw [if_neg h2] at hf
        simp at hf
    · rw [if_neg h1] at hf
      simp at hf
  · rintro ⟨raw, hmem, h2, hs⟩
    refine ⟨(col, raw), hmem, ?_⟩
    unfold hcFun
    rw [if_pos (by simpa using match952_ne_nil h2), if_pos h2, hs]
    rfl

/-- C7 is false as stated: a raw header `" 952$p"` cleans to `"952$p"`,
which matches the holdings pattern, yet the column is not registered —
the code matches the pattern against the raw, uncleaned header. -/
theorem c7_counterexample :
    match952 (cleanHeader (" 952$p".data)) = true ∧
    holding_cols (raw_headers [CellVal.str (" 952$p".data)]) = [] := by
  exact ⟨by decide, by decide⟩

/-! ### C8: the =008 line -/

/-- C8 (amended): every record's third line is `build_008` of the record
language; the 008 control string is 40 characters (not 22) for a 6-digit
date and 3-letter language; and the record language is the re-stripped
stored `041$a` when truthy, else the request default. -/
theorem c8_008_line :
    (∀ (today lang : List Char) (n : Nat) (g : Group),
      (mrkRecord today lang n g).get? 2
        = some (build_008 today (rec_lang (g.scalars ("041$a".data)) lang))) ∧
    (∀ (today lang : List Char), today.length = 6 → lang.length = 3 →
      (build_008 today lang).length = ("=008  ".data).length + 40) ∧
    (∀ (s lang : List Char), s ≠ [] → rec_lang (some s) lang = stripClean s) ∧
    (∀ lang : List Char,
      rec_lang Option.none lang = lang ∧ rec_lang (some []) lang = lang) := by
  refine ⟨fun today lang n g => rfl, ?_, ?_, ?_⟩
  · intro today lang h1 h2
    unfold build_008
    simp only [List.length_append, h1, h2]
    decide
  · intro s lang hs
    show (if s ≠ [] then stripClean s else lang) = stripClean s
    rw [if_pos hs]
  · intro lang
    constructor
    · rfl
    · unfold rec_lang
      simp

theorem c8_008_line_witness :
    (mrkRecord ("251012".data) ("und".data) 1 emptyGroup).get? 2
      = some (build_008 ("251012".data)
          (rec_lang (emptyGroup.scalars ("041$a".data)) ("und".data))) ∧
    (build_008 ("251012".data) ("und".data)).length = ("=008  ".data).length + 40 ∧
    rec_lang (some ("eng".data)) ("und".data) = stripClean ("eng".data) :=
  ⟨(c8_008_line).1 ("251012".data) ("und".data) 1 emptyGroup,
   (c8_008_line).2.1 _ _ (by decide) (by decide),
   (c8_008_line).2.2.1 _ _ (by decide)⟩

/-- C8 is false as stated: with the 3-letter default language the control
string following `"=008  "` has 40 characters, not 22. -/
theorem c8_counterexample :
    ¬ ((build_008 ("251012".data) ("und".data)).length
        = ("=008  ".data).length + 22) := by decide

/-! ### C4: the empty-sheet check -/

/-- C4: a workbook whose sheet contains only the header row is NOT
rejected — the conversion returns an empty `.mrk` attachment; the
`"No data rows"` error fires only when the sheet has no rows at all
(`app.py` line 147 checks `len(rows) < 1` before dropping the header). -/
theorem c4_header_only_not_rejected :
    upload_file ("251012".data) ("und".data)
      [[CellVal.str ("245$a".data), CellVal.str ("952$p".data)]]
      = Except.ok [] ∧
    upload_file ("251012".data) ("und".data) ([] : List (List CellVal))
      = Except.error ("No data rows in Excel file.".data) := by
  exact ⟨rfl, rfl⟩

/-! ### C6: duplicate codes in the 952 subfield order -/

/-- C6: the `952` precedence table lists `'t'` (and `'2'`) twice, so a
holdings item with a single `$t` subfield renders that subfield twice on
its `952` line — the code emits `"$tB001"` two times instead of once. -/
theorem c6_dup_subfield_order :
    line_mrk_pairs ("952".data) [('t', ("B001".data))] '\\' '\\'
      = ("=952  \\\\$tB001$tB001".data) := by decide

/-- C10: the fixed key-field schema `BIB_KEYS` has 40 entries, each key
field contributes at least one key segment, so every grouping key is the
`'||'`-join of at least 40 segments and the `f"row-{recid}"` fallback of
`app.py` line 219 is unreachable: the key never depends on the ordinal. -/
theorem c10_fallback_unreachable :
    BIB_KEYS.length = 40 ∧
    ∀ (rd : List (List Char × CellVal)) (recid : Nat),
      40 ≤ (keyParts rd).length ∧
      rowKey rd recid = List.intercalate ("||".data) (keyParts rd) := by
  exact ⟨bibkeys_length, fun rd recid => ⟨keyParts_length rd, rowKey_eq_intercalate rd recid⟩⟩

end Marc
